import Mathlib

/-!
Verification of the temperature-dispersion pipeline
(`temperature_dispersion.py`): a station-reference loader, an SQL-dump
record extractor, nested province → city → month aggregation, population
standard-deviation ranking, and an SVG bar-chart renderer.

Embedding conventions:
* Python dicts are embedded as insertion-ordered association lists
  (`List (κ × ν)`); `d[k] = v` updates the first occurrence in place or
  appends a fresh key at the end, exactly like CPython dicts.
* Python floats are embedded as exact rationals `ℚ`.
* `statistics.pstdev xs = Real.sqrt (pvariance xs)`.  Since `Real.sqrt` is
  strictly monotone on nonnegative reals, every comparison of pstdev
  values (and hence every sort on tuples keyed by pstdev) coincides with
  the corresponding comparison of the exact population variances, so the
  dispersion component of ranking tuples is embedded as the population
  variance `pvariance` (see `sqrt_lt_sqrt_iff_of_nonneg` below).
* Python string operations used by the code (`lower`, `startswith`,
  `in`, `strip`, lexicographic `<`) are embedded structurally over the
  character list of the string; Python compares strings by code point,
  which is exactly the order on `Char`.
* `list.sort(reverse=True)` is the stable descending sort; it is embedded
  as the stable descending insertion sort `sortDescBy`.
-/

namespace TempDispersion

/-! ### Association lists as insertion-ordered dicts -/

/-- `d.get(k)`: value at the first occurrence of key `k`. -/
def alGet {α β : Type} [DecidableEq α] : List (α × β) → α → Option β
  | [], _ => none
  | (k, v) :: rest, key => if k = key then some v else alGet rest key

/-- `d[k] = v`: overwrite the first occurrence of `k` in place, or append
a fresh key at the end (CPython dict assignment). -/
def alSet {α β : Type} [DecidableEq α] : List (α × β) → α → β → List (α × β)
  | [], key, val => [(key, val)]
  | (k, v) :: rest, key, val =>
    if k = key then (k, val) :: rest else (k, v) :: alSet rest key val

/-- The keys of an association list, in order. -/
def alKeys {α β : Type} (m : List (α × β)) : List α := m.map Prod.fst

theorem alGet_eq_none_iff {α β : Type} [DecidableEq α] (m : List (α × β)) (k : α) :
    alGet m k = none ↔ k ∉ alKeys m := by
  induction m with
  | nil => simp [alGet, alKeys]
  | cons hd tl ih =>
    obtain ⟨k', v'⟩ := hd
    by_cases h : k' = k
    · subst h
      simp [alGet, alKeys]
    · rw [alGet, if_neg h, ih]
      simp only [alKeys, List.map_cons, List.mem_cons]
      constructor
      · intro hn hc
        rcases hc with hc | hc
        · exact h hc.symm
        · exact hn hc
      · intro hn hm
        exact hn (Or.inr hm)

theorem alGet_mem {α β : Type} [DecidableEq α] {m : List (α × β)} {k : α} {v : β}
    (h : alGet m k = some v) : (k, v) ∈ m := by
  induction m with
  | nil => simp [alGet] at h
  | cons hd tl ih =>
    obtain ⟨k', v'⟩ := hd
    by_cases hk : k' = k
    · subst hk
      simp [alGet] at h
      simp [h]
    · simp [alGet, hk] at h
      simp [ih h]

theorem mem_alGet {α β : Type} [DecidableEq α] {m : List (α × β)} {k : α} {v : β}
    (hnd : (alKeys m).Nodup) (h : (k, v) ∈ m) : alGet m k = some v := by
  induction m with
  | nil => simp at h
  | cons hd tl ih =>
    obtain ⟨k', v'⟩ := hd
    simp only [alKeys, List.map_cons, List.nodup_cons] at hnd
    rcases List.mem_cons.mp h with h1 | h1
    · obtain ⟨hk, hv⟩ := Prod.mk.injEq .. ▸ h1
      simp_all [alGet]
    · have hk : k' ≠ k := by
        rintro rfl
        exact hnd.1 (by simpa [alKeys] using List.mem_map_of_mem Prod.fst h1)
      simp [alGet, hk, ih hnd.2 h1]

theorem alGet_alSet_same {α β : Type} [DecidableEq α] (m : List (α × β)) (k : α) (v : β) :
    alGet (alSet m k v) k = some v := by
  induction m with
  | nil => simp [alSet, alGet]
  | cons hd tl ih =>
    obtain ⟨k', v'⟩ := hd
    by_cases h : k' = k <;> simp [alSet, alGet, h, ih]

theorem alGet_alSet_ne {α β : Type} [DecidableEq α] (m : List (α × β)) (k k' : α) (v : β)
    (h : k ≠ k') : alGet (alSet m k v) k' = alGet m k' := by
  induction m with
  | nil => simp [alSet, alGet, h]
  | cons hd tl ih =>
    obtain ⟨k0, v0⟩ := hd
    by_cases h0 : k0 = k
    · subst h0
      simp [alSet, alGet, h]
    · simp [alSet, alGet, h0, ih]

theorem alKeys_alSet_sub {α β : Type} [DecidableEq α] (m : List (α × β)) (k : α) (v : β) :
    ∀ k', k' ∈ alKeys (alSet m k v) → k' = k ∨ k' ∈ alKeys m := by
  induction m with
  | nil => simp [alSet, alKeys]
  | cons hd tl ih =>
    obtain ⟨k0, v0⟩ := hd
    intro k' hk'
    by_cases h0 : k0 = k
    · subst h0
      simp [alSet, alKeys] at hk' ⊢
      tauto
    · simp [alSet, alKeys, h0] at hk' ⊢
      rcases hk' with h | h
      · tauto
      · rcases ih k' (by simpa [alKeys] using h) with h1 | h1
        · tauto
        · simp [alKeys] at h1
          tauto

theorem alKeys_alSet_nodup {α β : Type} [DecidableEq α] (m : List (α × β)) (k : α) (v : β)
    (h : (alKeys m).Nodup) : (alKeys (alSet m k v)).Nodup := by
  induction m with
  | nil => simp [alSet, alKeys]
  | cons hd tl ih =>
    obtain ⟨k0, v0⟩ := hd
    simp only [alKeys, List.map_cons, List.nodup_cons] at h
    by_cases h0 : k0 = k
    · subst h0
      simpa [alSet, alKeys, List.nodup_cons] using h
    · simp only [alSet, h0, if_false, alKeys, List.map_cons, List.nodup_cons]
      refine ⟨fun hc => ?_, ih h.2⟩
      rcases alKeys_alSet_sub tl k v k0 hc with h1 | h1
      · exact h0 h1
      · exact h.1 (by simpa [alKeys] using h1)

theorem alSet_mem_sub {α β : Type} [DecidableEq α] (m : List (α × β)) (k : α) (v : β) :
    ∀ e ∈ alSet m k v, e = (k, v) ∨ e ∈ m := by
  induction m with
  | nil => simp [alSet]
  | cons hd tl ih =>
    obtain ⟨k0, v0⟩ := hd
    intro e he
    by_cases h0 : k0 = k
    · subst h0
      simp [alSet] at he
      rcases he with h | h
      · simp [h]
      · simp [h]
    · simp [alSet, h0] at he
      rcases he with h | h
      · simp [h]
      · rcases ih e h with h1 | h1
        · simp [h1]
        · simp [h1]

/-! ### Python string operations, embedded structurally -/

/-- The apostrophe character `'` (code point 39). -/
def quoteChar : Char := Char.ofNat 39

/-- Python `str.lower()` restricted to ASCII (the only case the scanner
relies on), as a character list. -/
def lowerCL (s : String) : List Char := s.data.map Char.toLower

/-- Structural `List.isPrefixOf` as a `Bool`, embedding Python
`str.startswith` on the character level. -/
def startsWithCL : List Char → List Char → Bool
  | _, [] => true
  | [], _ :: _ => false
  | c :: cs, p :: ps => c = p && startsWithCL cs ps

/-- Python code-point lexicographic `<` on character lists (the order
Python uses to compare strings). -/
def charListLt : List Char → List Char → Bool
  | _ :: _, [] => false
  | [], [] => false
  | [], _ :: _ => true
  | a :: as, b :: bs => if a < b then true else if b < a then false else charListLt as bs

/-- Python string `<` (code-point lexicographic). -/
def strLt (a b : String) : Bool := charListLt a.data b.data

/-- Drop leading whitespace from a character list. -/
def dropLeadWS : List Char → List Char
  | [] => []
  | c :: cs => if c.isWhitespace then dropLeadWS cs else c :: cs

/-- Python `str.strip()` (ASCII whitespace): drop leading and trailing
whitespace. -/
def pyStrip (s : String) : String :=
  String.mk ((dropLeadWS (dropLeadWS s.data.reverse).reverse))

/-! ### Station-Province loader (`load_city_provinces`) -/

/-- One step of the `load_city_provinces` row loop: rows with fewer than
4 fields are skipped; otherwise column 2 is the province, column 3 the
city (both stripped); the pair is recorded only when city and province
are nonempty and the city is not yet present (first-seen wins). -/
def loadProvStep (acc : List (String × String)) (row : List String) :
    List (String × String) :=
  if row.length < 4 then acc
  else if pyStrip (row.getD 3 "") ≠ "" ∧ pyStrip (row.getD 2 "") ≠ "" ∧
      alGet acc (pyStrip (row.getD 3 "")) = none
  then acc ++ [(pyStrip (row.getD 3 ""), pyStrip (row.getD 2 ""))]
  else acc

/-- `load_city_provinces`: fold the row loop over all rows after the
header row (`next(reader, None)` skips the first row). -/
def load_city_provinces (rows : List (List String)) : List (String × String) :=
  (rows.drop 1).foldl loadProvStep []

/-- Modelled from the spec: "the mapping equals the province of its first
valid occurrence in file order" — the first row (after the header) with at
least 4 fields whose stripped city equals `city` and whose stripped city
and province are both nonempty, yielding that row's stripped province. -/
def spec_first_valid_province (rows : List (List String)) (city : String) :
    Option String :=
  (rows.drop 1).findSome? (fun row =>
    if row.length < 4 then none
    else if pyStrip (row.getD 3 "") = city ∧ city ≠ "" ∧ pyStrip (row.getD 2 "") ≠ ""
    then some (pyStrip (row.getD 2 ""))
    else none)

theorem alGet_append_single_same {β : Type} (acc : List (String × β)) (c : String)
    (p : β) (h : alGet acc c = none) : alGet (acc ++ [(c, p)]) c = some p := by
  induction acc with
  | nil => simp [alGet]
  | cons hd tl ih =>
    obtain ⟨k0, v0⟩ := hd
    by_cases h0 : k0 = c
    · subst h0
      simp [alGet] at h
    · simp only [alGet, if_neg h0] at h
      simpa [alGet, h0] using ih h

theorem alGet_append_single_ne {β : Type} (acc : List (String × β)) (c city : String)
    (p : β) (h : c ≠ city) : alGet (acc ++ [(c, p)]) city = alGet acc city := by
  induction acc with
  | nil => simp [alGet, h]
  | cons hd tl ih =>
    obtain ⟨k0, v0⟩ := hd
    by_cases h0 : k0 = city <;> simp [alGet, h0, ih]

theorem loadProv_keys_nodup (rows : List (List String)) :
    ∀ acc : List (String × String), (alKeys acc).Nodup →
      (alKeys (rows.foldl loadProvStep acc)).Nodup := by
  induction rows with
  | nil => intro acc h; simpa using h
  | cons row rest ih =>
    intro acc h
    simp only [List.foldl_cons]
    refine ih _ ?_
    unfold loadProvStep
    split
    · exact h
    · split
      · rename_i hcond
        have hnotin : pyStrip (row.getD 3 "") ∉ alKeys acc :=
          (alGet_eq_none_iff acc _).mp hcond.2.2
        rw [show alKeys (acc ++ [(pyStrip (row.getD 3 ""), pyStrip (row.getD 2 ""))]) =
            alKeys acc ++ [pyStrip (row.getD 3 "")] from by simp [alKeys]]
        refine List.Nodup.append h (List.nodup_singleton _) ?_
        intro a ha hb
        rw [List.mem_singleton] at hb
        exact hnotin (hb ▸ ha)
      · exact h

theorem loadProv_get (rows : List (List String)) :
    ∀ (acc : List (String × String)) (city : String),
      alGet (rows.foldl loadProvStep acc) city =
        match alGet acc city with
        | some p => some p
        | none =>
            rows.findSome? (fun row =>
              if row.length < 4 then none
              else if pyStrip (row.getD 3 "") = city ∧ city ≠ "" ∧
                  pyStrip (row.getD 2 "") ≠ ""
              then some (pyStrip (row.getD 2 ""))
              else none) := by
  induction rows with
  | nil =>
    intro acc city
    cases h : alGet acc city <;> simp [h]
  | cons row rest ih =>
    intro acc city
    simp only [List.foldl_cons, List.findSome?_cons]
    by_cases hlen : row.length < 4
    · have hstep : loadProvStep acc row = acc := by simp [loadProvStep, hlen]
      rw [hstep, ih]
      cases h : alGet acc city <;> simp [h, hlen]
    · by_cases hcond : pyStrip (row.getD 3 "") ≠ "" ∧ pyStrip (row.getD 2 "") ≠ "" ∧
          alGet acc (pyStrip (row.getD 3 "")) = none
      · have hstep : loadProvStep acc row =
            acc ++ [(pyStrip (row.getD 3 ""), pyStrip (row.getD 2 ""))] := by
          simp only [loadProvStep, if_neg hlen, if_pos hcond]
        rw [hstep, ih]
        by_cases hcity : pyStrip (row.getD 3 "") = city
        · subst hcity
          rw [alGet_append_single_same acc _ _ hcond.2.2, hcond.2.2, if_neg hlen,
            if_pos ⟨rfl, hcond.1, hcond.2.1⟩]
        · rw [alGet_append_single_ne acc _ city _ hcity]
          cases h : alGet acc city with
          | some q => simp [hlen]
          | none =>
            have hno : ¬(pyStrip (row.getD 3 "") = city ∧ city ≠ "" ∧
                pyStrip (row.getD 2 "") ≠ "") := fun hc => hcity hc.1
            rw [if_neg hlen, if_neg hno]
      · have hstep : loadProvStep acc row = acc := by
          simp only [loadProvStep, if_neg hlen, if_neg hcond]
        rw [hstep, ih]
        cases h : alGet acc city with
        | some q => simp [hlen]
        | none =>
          have hno : ¬(pyStrip (row.getD 3 "") = city ∧ city ≠ "" ∧
              pyStrip (row.getD 2 "") ≠ "") := by
            rintro ⟨h1, h2, h3⟩
            exact hcond ⟨h1 ▸ h2, h3, h1 ▸ h⟩
          rw [if_neg hlen, if_neg hno]

/-- C8: In the mapping produced by `load_city_provinces`, every city maps to
exactly one province (the key list has no duplicates), and each city's value
is the province of its first valid occurrence in file order, the header row
being skipped; rows with fewer than 4 fields or with an empty (stripped) city
or province are silently skipped, and later occurrences of a city are
ignored. -/
theorem claim_C8_first_seen_wins (rows : List (List String)) (city : String) :
    (alKeys (load_city_provinces rows)).Nodup ∧
    alGet (load_city_provinces rows) city = spec_first_valid_province rows city := by
  constructor
  · exact loadProv_keys_nodup _ [] (by simp [alKeys])
  · rw [load_city_provinces, loadProv_get, spec_first_valid_province]
    simp [alGet]

/-! ### Dump record extractor (`load_city_temps`) -/

/-- The case-insensitive statement marker `insert into city_temp`. -/
def insertMarker : List Char := "insert into city_temp".data

/-- `line.lower().startswith("insert into city_temp")`. -/
def isMarkerLine (line : String) : Bool := startsWithCL (lowerCL line) insertMarker

/-- `";" in line`. -/
def hasSemicolon (line : String) : Bool := line.data.contains ';'

/-- The line-scanning state machine of `load_city_temps`: a marker line is
always buffered and sets `in_city_temp` (and `continue`s, skipping the
terminator check); any other line is buffered while `in_city_temp`, and the
first such line containing `;` ends the scan. -/
def selectBufferAux : Bool → List String → List String
  | _, [] => []
  | inCityTemp, line :: rest =>
    if isMarkerLine line then line :: selectBufferAux true rest
    else if inCityTemp then
      if hasSemicolon line then [line]
      else line :: selectBufferAux true rest
    else selectBufferAux false rest

/-- The buffered lines of the scan, starting with `in_city_temp = False`. -/
def selectBuffer (lines : List String) : List String := selectBufferAux false lines

/-- Numeric value of a digit run (`int(match.group(1))`). -/
def digitsToNat (ds : List Char) : Nat := ds.foldl (fun acc c => acc * 10 + (c.toNat - 48)) 0

/-- Character class `[-\d.]` of the temperature group. -/
def isNumChar (c : Char) : Bool := c.isDigit || c = '-' || c = '.'

/-- Match the tuple pattern `\((\d+),\s*'([^']+)',\s*([-\d.]+)\)` at the head
of the character list; on success return `(month digits value, city text,
temperature text)` together with the characters following the match.  Each
quantified class is followed by a character outside the class, so greedy
matching needs no backtracking. -/
def matchTupleAt (cs : List Char) : Option ((Nat × String × String) × List Char) :=
  match cs with
  | '(' :: cs1 =>
    let ds := cs1.takeWhile Char.isDigit
    let cs2 := cs1.dropWhile Char.isDigit
    if ds.isEmpty then none
    else
      match cs2 with
      | ',' :: cs3 =>
        let cs4 := cs3.dropWhile Char.isWhitespace
        match cs4 with
        | q :: cs5 =>
          if q = quoteChar then
            let city := cs5.takeWhile (fun c => !(c = quoteChar))
            let cs6 := cs5.dropWhile (fun c => !(c = quoteChar))
            if city.isEmpty then none
            else
              match cs6 with
              | q2 :: cs7 =>
                if q2 = quoteChar then
                  match cs7 with
                  | ',' :: cs8 =>
                    let cs9 := cs8.dropWhile Char.isWhitespace
                    let num := cs9.takeWhile isNumChar
                    let cs10 := cs9.dropWhile isNumChar
                    if num.isEmpty then none
                    else
                      match cs10 with
                      | ')' :: cs11 =>
                        some ((digitsToNat ds, String.mk city, String.mk num), cs11)
                      | _ => none
                  | _ => none
                else none
              | [] => none
          else none
        | [] => none
      | _ => none
  | _ => none

/-- `re.finditer`: leftmost non-overlapping matches, resuming after each
match; the fuel argument (initially the line length) bounds the recursion
and never runs out, since every step consumes at least one character. -/
def findTuplesAux : Nat → List Char → List (Nat × String × String)
  | 0, _ => []
  | _ + 1, [] => []
  | fuel + 1, c :: rest =>
    match matchTupleAt (c :: rest) with
    | some (t, after) => t :: findTuplesAux fuel after
    | none => findTuplesAux fuel rest

/-- All tuple matches in one line. -/
def findTuples (line : String) : List (Nat × String × String) :=
  findTuplesAux line.data.length line.data

/-- The observation loop body of `load_city_temps`: every tuple match in a
line yields `(province, city, month, temperature-text)` unless the city is
absent from the station lookup or maps to a falsy (empty) province, in which
case it is skipped.  The temperature is kept as the matched text: Python
applies `float` to it, and the downstream aggregation is embedded over `ℚ`
parametrically in the observation list. -/
def extractLine (city_to_province : List (String × String)) (line : String) :
    List (String × String × Nat × String) :=
  (findTuples line).filterMap (fun t =>
    match alGet city_to_province t.2.1 with
    | none => none
    | some province =>
        if province = "" then none else some (province, t.2.1, t.1, t.2.2))

/-- `load_city_temps`: scan and buffer lines, then extract every tuple match
from the buffered lines, in order. -/
def load_city_temps (lines : List String) (city_to_province : List (String × String)) :
    List (String × String × Nat × String) :=
  (selectBuffer lines).flatMap (extractLine city_to_province)

theorem selectBufferAux_skip (pre : List String) (rest : List String)
    (h : ∀ l ∈ pre, isMarkerLine l = false) :
    selectBufferAux false (pre ++ rest) = selectBufferAux false rest := by
  induction pre with
  | nil => rfl
  | cons hd tl ih =>
    have hhd : isMarkerLine hd = false := h hd (by simp)
    simp only [List.cons_append, selectBufferAux, hhd]
    simpa using ih (fun l hl => h l (by simp [hl]))

theorem selectBufferAux_buffering (mid : List String) (term : String)
    (post : List String)
    (hmid : ∀ l ∈ mid, isMarkerLine l = true ∨ hasSemicolon l = false)
    (hterm : isMarkerLine term = false) (hsem : hasSemicolon term = true) :
    selectBufferAux true (mid ++ term :: post) = mid ++ [term] := by
  induction mid with
  | nil => simp [selectBufferAux, hterm, hsem]
  | cons hd tl ih =>
    have ih' := ih (fun l hl => hmid l (by simp [hl]))
    rcases hmid hd (by simp) with hm | hs
    · simp [selectBufferAux, hm, ih']
    · by_cases hm : isMarkerLine hd = true
      · simp [selectBufferAux, hm, ih']
      · simp only [Bool.not_eq_true] at hm
        simp [selectBufferAux, hm, hs, ih']

/-- C4 (amended): buffering begins at the first line whose lowercased prefix
matches the insert marker; every later line is buffered, and scanning stops
at the first buffered line that contains `;` and does not itself match the
marker prefix (marker-matching lines are buffered by the first branch of the
loop, which `continue`s before the terminator check).  Everything after that
terminating line — in particular a second insert block for the same table —
is ignored and contributes no observations. -/
theorem claim_C4_amended_first_statement (pre mid post : List String)
    (m0 term : String) (ctp : List (String × String))
    (hpre : ∀ l ∈ pre, isMarkerLine l = false)
    (hm0 : isMarkerLine m0 = true)
    (hmid : ∀ l ∈ mid, isMarkerLine l = true ∨ hasSemicolon l = false)
    (hterm : isMarkerLine term = false) (hsem : hasSemicolon term = true) :
    selectBuffer (pre ++ m0 :: (mid ++ term :: post)) = m0 :: (mid ++ [term]) ∧
    load_city_temps (pre ++ m0 :: (mid ++ term :: post)) ctp =
      (m0 :: (mid ++ [term])).flatMap (extractLine ctp) := by
  have hbuf : selectBuffer (pre ++ m0 :: (mid ++ term :: post)) = m0 :: (mid ++ [term]) := by
    rw [selectBuffer, selectBufferAux_skip pre _ hpre]
    simp only [selectBufferAux, hm0, if_true]
    rw [selectBufferAux_buffering mid term post hmid hterm hsem]
  exact ⟨hbuf, by rw [load_city_temps, hbuf]⟩

/-- C4 falsified at a concrete dump: the first marker line already contains
the terminator `;`, yet scanning does not stop there (marker lines skip the
terminator check), so a second insert block for the same table is also
buffered and contributes an observation — the claim predicts the buffer
stops at the first line and the second block contributes nothing. -/
theorem claim_C4_counterexample :
    hasSemicolon "insert into city_temp values (1, 'a', 1.5);" = true ∧
    selectBuffer ["insert into city_temp values (1, 'a', 1.5);",
        "insert into city_temp values (2, 'b', 2.5);"] =
      ["insert into city_temp values (1, 'a', 1.5);",
        "insert into city_temp values (2, 'b', 2.5);"] ∧
    ("PB", "b", 2, "2.5") ∈
      load_city_temps ["insert into city_temp values (1, 'a', 1.5);",
        "insert into city_temp values (2, 'b', 2.5);"] [("a", "PA"), ("b", "PB")] := by
  decide

/-- Witness for `claim_C4_amended_first_statement` at a concrete well-formed
dump with a trailing second insert block. -/
theorem claim_C4_amended_witness :
    (∀ l ∈ ["-- header"], isMarkerLine l = false) ∧
    isMarkerLine "INSERT INTO city_temp (month, city, temp) VALUES" = true ∧
    (∀ l ∈ ["(1, 'Beijing', -3.5),"],
      isMarkerLine l = true ∨ hasSemicolon l = false) ∧
    isMarkerLine "(2, 'Shanghai', 4.0);" = false ∧
    hasSemicolon "(2, 'Shanghai', 4.0);" = true ∧
    (selectBuffer (["-- header"] ++
        "INSERT INTO city_temp (month, city, temp) VALUES" ::
          (["(1, 'Beijing', -3.5),"] ++ "(2, 'Shanghai', 4.0);" ::
            ["insert into city_temp values (3, 'Tianjin', 1.0);"])) =
      "INSERT INTO city_temp (month, city, temp) VALUES" ::
        (["(1, 'Beijing', -3.5),"] ++ ["(2, 'Shanghai', 4.0);"]) ∧
    load_city_temps (["-- header"] ++
        "INSERT INTO city_temp (month, city, temp) VALUES" ::
          (["(1, 'Beijing', -3.5),"] ++ "(2, 'Shanghai', 4.0);" ::
            ["insert into city_temp values (3, 'Tianjin', 1.0);"]))
        [("Beijing", "Hebei"), ("Shanghai", "SH"), ("Tianjin", "TJ")] =
      ("INSERT INTO city_temp (month, city, temp) VALUES" ::
        (["(1, 'Beijing', -3.5),"] ++ ["(2, 'Shanghai', 4.0);"])).flatMap
        (extractLine [("Beijing", "Hebei"), ("Shanghai", "SH"), ("Tianjin", "TJ")])) :=
  ⟨by decide, by decide, by decide, by decide, by decide,
    claim_C4_amended_first_statement ["-- header"] ["(1, 'Beijing', -3.5),"]
      ["insert into city_temp values (3, 'Tianjin', 1.0);"]
      "INSERT INTO city_temp (month, city, temp) VALUES" "(2, 'Shanghai', 4.0);"
      [("Beijing", "Hebei"), ("Shanghai", "SH"), ("Tianjin", "TJ")]
      (by decide) (by decide) (by decide) (by decide) (by decide)⟩

/-! ### Temporal aggregator (`build_city_monthly_map`) -/

/-- Monthly temperatures of one city: month → value. -/
abbrev MonthMap := List (Nat × ℚ)

/-- Cities of one province: city → month map. -/
abbrev CityMap := List (String × MonthMap)

/-- The province → city → month table. -/
abbrev PCM := List (String × CityMap)

/-- A temperature observation `(province, city, month, value)` as yielded by
the extractor (value embedded as `ℚ`). -/
abbrev Obs := String × String × Nat × ℚ

/-- One step of the aggregation loop:
`province_city_month[province][city][month] = temp`, with `defaultdict`
creating the missing inner maps on access. -/
def buildStep (t : PCM) (o : Obs) : PCM :=
  alSet t o.1
    (alSet ((alGet t o.1).getD []) o.2.1
      (alSet ((alGet ((alGet t o.1).getD []) o.2.1).getD []) o.2.2.1 o.2.2.2))

/-- `build_city_monthly_map`: fold the loop over the observation list. -/
def build_city_monthly_map (obs : List Obs) : PCM := obs.foldl buildStep []

/-- Value at `table[p][c][m]`, `none` when any level is missing. -/
def lookup3 (t : PCM) (p c : String) (m : Nat) : Option ℚ :=
  match alGet t p with
  | none => none
  | some cm =>
    match alGet cm c with
    | none => none
    | some mm => alGet mm m

/-- Modelled from the spec: "the final value for each key equals the
temperature of the last observation with that key (last-write-wins)" — scan
the observations in order, remembering the temperature of the most recent
observation with the given (province, city, month) key. -/
def spec_last_write (obs : List Obs) (p c : String) (m : Nat) : Option ℚ :=
  obs.foldl (fun acc o => if o.1 = p ∧ o.2.1 = c ∧ o.2.2.1 = m then some o.2.2.2 else acc)
    none

/-- Well-formedness of a city map: distinct city keys and distinct month
keys for each city — "at most one value per key" at both inner levels. -/
def alWF2 (cm : CityMap) : Prop :=
  (alKeys cm).Nodup ∧ ∀ e ∈ cm, (alKeys e.2).Nodup

/-- Well-formedness of the province table: distinct province keys and
well-formed city maps — "at most one value per (province, city, month)
triple". -/
def alWF3 (t : PCM) : Prop :=
  (alKeys t).Nodup ∧ ∀ e ∈ t, alWF2 e.2

theorem lookup3_buildStep (t : PCM) (o : Obs) (p c : String) (m : Nat) :
    lookup3 (buildStep t o) p c m =
      if o.1 = p ∧ o.2.1 = c ∧ o.2.2.1 = m then some o.2.2.2 else lookup3 t p c m := by
  obtain ⟨p', c', m', v⟩ := o
  dsimp only [buildStep, lookup3]
  by_cases hp : p' = p
  · subst hp
    rw [alGet_alSet_same]
    by_cases hc : c' = c
    · subst hc
      by_cases hm : m' = m
      · subst hm
        simp [alGet_alSet_same]
      · rw [if_neg (fun hh => hm hh.2.2)]
        cases hcm : alGet t p' with
        | none => simp [alGet_alSet_same, alGet_alSet_ne _ _ _ _ hm, hcm, alGet, hm]
        | some cm =>
          cases hmm : alGet cm c' with
          | none => simp [alGet_alSet_same, alGet_alSet_ne _ _ _ _ hm, hcm, hmm, alGet, hm]
          | some mm => simp [alGet_alSet_same, alGet_alSet_ne _ _ _ _ hm, hcm, hmm, hm]
    · rw [if_neg (fun hh => hc hh.2.1)]
      cases hcm : alGet t p' with
      | none => simp [alGet_alSet_ne _ _ _ _ hc, hcm, alGet, hc]
      | some cm => simp [alGet_alSet_ne _ _ _ _ hc, hcm, hc]
  · rw [alGet_alSet_ne _ _ _ _ hp, if_neg (fun hh => hp hh.1)]

theorem lookup3_build_fold (obs : List Obs) (p c : String) (m : Nat) :
    ∀ t : PCM, lookup3 (obs.foldl buildStep t) p c m =
      obs.foldl
        (fun acc o => if o.1 = p ∧ o.2.1 = c ∧ o.2.2.1 = m then some o.2.2.2 else acc)
        (lookup3 t p c m) := by
  induction obs with
  | nil => intro t; rfl
  | cons o rest ih =>
    intro t
    simp only [List.foldl_cons]
    rw [ih, lookup3_buildStep]

theorem alWF3_buildStep (t : PCM) (o : Obs) (h : alWF3 t) : alWF3 (buildStep t o) := by
  obtain ⟨p', c', m', v⟩ := o
  obtain ⟨hkeys, hent⟩ := h
  have hcm0 : (alKeys ((alGet t p').getD [])).Nodup ∧
      ∀ e ∈ (alGet t p').getD [], (alKeys e.2).Nodup := by
    cases hg : alGet t p' with
    | none => simp [alKeys]
    | some cm => exact (hent _ (alGet_mem hg)).imp id (fun h2 => h2)
  have hmm0 : (alKeys ((alGet ((alGet t p').getD []) c').getD [])).Nodup := by
    cases hg : alGet ((alGet t p').getD []) c' with
    | none => simp [alKeys]
    | some mm => exact hcm0.2 _ (alGet_mem hg)
  constructor
  · exact alKeys_alSet_nodup _ _ _ hkeys
  · intro e he
    rcases alSet_mem_sub _ _ _ e he with h1 | h1
    · subst h1
      constructor
      · exact alKeys_alSet_nodup _ _ _ hcm0.1
      · intro e2 he2
        rcases alSet_mem_sub _ _ _ e2 he2 with h2 | h2
        · subst h2
          exact alKeys_alSet_nodup _ _ _ hmm0
        · exact hcm0.2 _ h2
    · exact hent _ h1

/-- C6: the table built by `build_city_monthly_map` holds at most one value
per (province, city, month) triple (all three key levels are duplicate-free),
and the value stored at each key equals the temperature of the *last*
observation in sequence order with that key — later duplicates overwrite
earlier ones without any duplicate-detection error. -/
theorem claim_C6_last_write_wins (obs : List Obs) :
    alWF3 (build_city_monthly_map obs) ∧
    ∀ p c m, lookup3 (build_city_monthly_map obs) p c m = spec_last_write obs p c m := by
  constructor
  · have : ∀ t : PCM, alWF3 t → alWF3 (obs.foldl buildStep t) := by
      induction obs with
      | nil => intro t h; exact h
      | cons o rest ih =>
        intro t h
        exact ih _ (alWF3_buildStep t o h)
    exact this [] ⟨by simp [alKeys], by simp⟩
  · intro p c m
    rw [build_city_monthly_map, lookup3_build_fold, spec_last_write]
    rfl

/-! ### Annual mean reducer (`compute_annual_means`) -/

/-- Sum of a list of rationals. -/
def listSum : List ℚ → ℚ
  | [] => 0
  | x :: xs => x + listSum xs

/-- `statistics.mean`: the exact arithmetic mean `sum / length`. -/
def listMean (l : List ℚ) : ℚ := listSum l / l.length

/-- The population variance `Σ (x - mean)² / n`; `statistics.pstdev` is its
square root (see the module docstring for why ranking is embedded over the
variance). -/
def pvariance (l : List ℚ) : ℚ :=
  listSum (l.map (fun x => (x - listMean l) ^ 2)) / l.length

/-- Per-province tables of annual means: province → city → mean. -/
abbrev Annual := List (String × List (String × ℚ))

/-- One step of the inner city loop of `compute_annual_means`: skip a city
with no recorded months (`if not months: continue`), otherwise
`province_city_annual[province][city] = mean(months.values())`. -/
def annualCityStep (p : String) (acc : Annual) (cm : String × MonthMap) : Annual :=
  if cm.2.isEmpty then acc
  else alSet acc p (alSet ((alGet acc p).getD []) cm.1 (listMean (cm.2.map Prod.snd)))

/-- `compute_annual_means`: iterate provinces, then cities. -/
def compute_annual_means (t : PCM) : Annual :=
  t.foldl (fun acc pc => pc.2.foldl (annualCityStep pc.1) acc) []

/-- Value at `table[p][c]` of a two-level table, `none` when missing. -/
def lookup2 {β : Type} (t : List (String × List (String × β))) (p c : String) :
    Option β :=
  match alGet t p with
  | none => none
  | some cm => alGet cm c

theorem lookup2_eq_getD {β : Type} (t : List (String × List (String × β)))
    (p c : String) : lookup2 t p c = alGet ((alGet t p).getD []) c := by
  cases h : alGet t p <;> simp [lookup2, h, alGet]

theorem annualCity_fold_ne (p p' : String) (hp : p ≠ p') (cms : CityMap) :
    ∀ acc : Annual, alGet (cms.foldl (annualCityStep p) acc) p' = alGet acc p' := by
  induction cms with
  | nil => intro acc; rfl
  | cons cm rest ih =>
    intro acc
    simp only [List.foldl_cons]
    rw [ih]
    unfold annualCityStep
    split
    · rfl
    · exact alGet_alSet_ne _ _ _ _ hp

theorem annualCity_fold_get (p c : String) (cms : CityMap)
    (hnd : (alKeys cms).Nodup) :
    ∀ acc : Annual, alGet ((alGet (cms.foldl (annualCityStep p) acc) p).getD []) c =
      match alGet cms c with
      | none => alGet ((alGet acc p).getD []) c
      | some ms =>
          if ms.isEmpty then alGet ((alGet acc p).getD []) c
          else some (listMean (ms.map Prod.snd)) := by
  induction cms with
  | nil => intro acc; rfl
  | cons cm rest ih =>
    simp only [alKeys, List.map_cons, List.nodup_cons] at hnd
    intro acc
    have ih' := ih hnd.2
    simp only [List.foldl_cons]
    by_cases hc : cm.1 = c
    · have hrest : alGet rest c = none := by
        rw [alGet_eq_none_iff]
        exact fun hmem => hnd.1 (hc ▸ hmem)
      by_cases hE : cm.2.isEmpty
      · rw [show annualCityStep p acc cm = acc from by simp [annualCityStep, hE]]
        rw [ih' acc, hrest]
        obtain ⟨c1, ms1⟩ := cm
        simp only at hc
        subst hc
        simp only at hE
        simp [alGet, hE]
      · rw [show annualCityStep p acc cm =
            alSet acc p (alSet ((alGet acc p).getD []) cm.1
              (listMean (cm.2.map Prod.snd))) from by simp [annualCityStep, hE]]
        rw [ih' _, hrest]
        obtain ⟨c1, ms1⟩ := cm
        simp only at hc
        subst hc
        simp only at hE ⊢
        rw [alGet_alSet_same]
        simp only [Option.getD_some]
        rw [alGet_alSet_same]
        simp [alGet, hE]
    · by_cases hE : cm.2.isEmpty
      · rw [show annualCityStep p acc cm = acc from by simp [annualCityStep, hE]]
        rw [ih' acc]
        obtain ⟨c1, ms1⟩ := cm
        simp only at hc
        simp [alGet, hc]
      · rw [show annualCityStep p acc cm =
            alSet acc p (alSet ((alGet acc p).getD []) cm.1
              (listMean (cm.2.map Prod.snd))) from by simp [annualCityStep, hE]]
        rw [ih' _]
        obtain ⟨c1, ms1⟩ := cm
        simp only at hc ⊢
        have hbase : alGet ((alGet (alSet acc p (alSet ((alGet acc p).getD []) c1
            (listMean (ms1.map Prod.snd)))) p).getD []) c = alGet ((alGet acc p).getD []) c := by
          rw [alGet_alSet_same]
          simp only [Option.getD_some]
          rw [alGet_alSet_ne _ _ _ _ hc]
        cases hr : alGet rest c with
        | none => simp [alGet, hc, hr, hbase]
        | some ms => simp [alGet, hc, hr, hbase]

theorem annual_outer_ne (p' : String) :
    ∀ (t : PCM) (acc : Annual), (∀ e ∈ t, e.1 ≠ p') →
      alGet (t.foldl (fun acc pc => pc.2.foldl (annualCityStep pc.1) acc) acc) p' =
        alGet acc p' := by
  intro t
  induction t with
  | nil => intro acc _; rfl
  | cons pc rest ih =>
    intro acc h
    simp only [List.foldl_cons]
    rw [ih _ (fun e he => h e (by simp [he]))]
    exact annualCity_fold_ne pc.1 p' (h pc (by simp)) pc.2 acc

theorem compute_annual_get_aux (p c : String) :
    ∀ (t : PCM) (acc : Annual), (alKeys t).Nodup → (∀ e ∈ t, (alKeys e.2).Nodup) →
      alGet ((alGet (t.foldl (fun acc pc => pc.2.foldl (annualCityStep pc.1) acc) acc) p).getD []) c =
        match lookup2 t p c with
        | none => alGet ((alGet acc p).getD []) c
        | some ms =>
            if ms.isEmpty then alGet ((alGet acc p).getD []) c
            else some (listMean (ms.map Prod.snd)) := by
  intro t
  induction t with
  | nil => intro acc _ _; cases h : lookup2 [] p c <;> simp [lookup2, alGet] at h ⊢
  | cons pc rest ih =>
    intro acc h1 h2
    obtain ⟨p0, cms0⟩ := pc
    simp only [alKeys, List.map_cons, List.nodup_cons] at h1
    simp only [List.foldl_cons]
    by_cases hp : p0 = p
    · subst hp
      have hnot : ∀ e ∈ rest, e.1 ≠ p0 := by
        intro e he hcon
        exact h1.1 (hcon ▸ List.mem_map_of_mem Prod.fst he)
      rw [annual_outer_ne p0 rest _ hnot]
      rw [annualCity_fold_get p0 c cms0 (h2 (p0, cms0) (by simp)) acc]
      simp [lookup2, alGet]
    · rw [ih _ h1.2 (fun e he => h2 e (by simp [he]))]
      rw [show lookup2 ((p0, cms0) :: rest) p c = lookup2 rest p c from by
        simp [lookup2, alGet, hp]]
      cases hr : lookup2 rest p c with
      | none => simp [annualCity_fold_ne p0 p hp cms0 acc]
      | some ms => simp [annualCity_fold_ne p0 p hp cms0 acc]

/-- C7: `compute_annual_means` maps every (province, city) with at least one
recorded month to the exact arithmetic mean of that city's recorded monthly
values (months that are absent simply do not contribute), a city with zero
recorded months never appears, every produced value is a sum divided by a
provably non-zero count (no division by zero, no NaN), and for recorded
months `{1: 0, 6: 10}` the annual mean is `5`. -/
theorem claim_C7_annual_means (t : PCM) (h1 : (alKeys t).Nodup)
    (h2 : ∀ e ∈ t, (alKeys e.2).Nodup) :
    (∀ p c, lookup2 (compute_annual_means t) p c =
      match lookup2 t p c with
      | none => none
      | some ms => if ms.isEmpty then none else some (listMean (ms.map Prod.snd))) ∧
    (∀ p c q, lookup2 (compute_annual_means t) p c = some q →
      ∃ ms, lookup2 t p c = some ms ∧ ms ≠ [] ∧ ((ms.map Prod.snd).length : ℚ) ≠ 0 ∧
        q = listSum (ms.map Prod.snd) / (ms.map Prod.snd).length) ∧
    lookup2 (compute_annual_means [("P", [("c", [(1, 0), (6, 10)])])]) "P" "c" =
      some 5 := by
  have hmain : ∀ p c, lookup2 (compute_annual_means t) p c =
      match lookup2 t p c with
      | none => none
      | some ms => if ms.isEmpty then none else some (listMean (ms.map Prod.snd)) := by
    intro p c
    rw [lookup2_eq_getD, compute_annual_means, compute_annual_get_aux p c t [] h1 h2]
    cases hr : lookup2 t p c with
    | none => simp [alGet]
    | some ms => simp [alGet]
  refine ⟨hmain, ?_, ?_⟩
  · intro p c q hq
    rw [hmain p c] at hq
    cases hr : lookup2 t p c with
    | none => rw [hr] at hq; simp at hq
    | some ms =>
      rw [hr] at hq
      by_cases hE : ms.isEmpty
      · simp [hE] at hq
      · simp [hE] at hq
        have hne : ms ≠ [] := by cases ms <;> simp_all
        have hlen0 : ms.length ≠ 0 := fun h => hne (List.length_eq_zero.mp h)
        have hlen : ((ms.map Prod.snd).length : ℚ) ≠ 0 := by
          rw [List.length_map]
          exact_mod_cast hlen0
        refine ⟨ms, rfl, hne, hlen, ?_⟩
        rw [← hq, listMean]
  · norm_num [compute_annual_means, annualCityStep, listMean, listSum, alSet, alGet,
      lookup2, List.foldl_cons, List.foldl_nil]

/-- Witness for `claim_C7_annual_means` at a concrete one-province table. -/
theorem claim_C7_annual_means_witness :
    (alKeys ([("P", [("c", [(1, 0), (6, 10)])])] : PCM)).Nodup ∧
    (∀ e ∈ ([("P", [("c", [(1, 0), (6, 10)])])] : PCM), (alKeys e.2).Nodup) ∧
    lookup2 (compute_annual_means [("P", [("c", [(1, 0), (6, 10)])])]) "P" "c" =
      some 5 :=
  ⟨by decide, by decide,
    (claim_C7_annual_means [("P", [("c", [(1, 0), (6, 10)])])]
      (by decide) (by decide)).2.2⟩

/-! ### `list.sort(reverse=True)`: stable descending sort -/

/-- Insert `x` into a descending-sorted list: walk past the elements that
are strictly greater than `x`, and place `x` before the first element not
greater than it (so an element equal to `x` stays in front only if it was
already earlier — stability of the Python sort). -/
def insertDescBy {α : Type} (lt : α → α → Bool) (x : α) : List α → List α
  | [] => [x]
  | y :: ys => if lt x y then y :: insertDescBy lt x ys else x :: y :: ys

/-- Stable descending insertion sort — extensionally equal to CPython's
stable `list.sort(reverse=True)` for a strict total order `lt`. -/
def sortDescBy {α : Type} (lt : α → α → Bool) : List α → List α
  | [] => []
  | x :: xs => insertDescBy lt x (sortDescBy lt xs)

theorem insertDescBy_perm {α : Type} (lt : α → α → Bool) (x : α) (l : List α) :
    (insertDescBy lt x l).Perm (x :: l) := by
  induction l with
  | nil => simp [insertDescBy]
  | cons y ys ih =>
    rw [insertDescBy]
    split
    · exact ((ih.cons y).trans (List.Perm.swap x y ys)).symm.symm
    · exact List.Perm.refl _

theorem sortDescBy_perm {α : Type} (lt : α → α → Bool) (l : List α) :
    (sortDescBy lt l).Perm l := by
  induction l with
  | nil => simp [sortDescBy]
  | cons x xs ih =>
    exact (insertDescBy_perm lt x (sortDescBy lt xs)).trans (ih.cons x)

theorem mem_insertDescBy {α : Type} (lt : α → α → Bool) (x z : α) (l : List α) :
    z ∈ insertDescBy lt x l ↔ z = x ∨ z ∈ l :=
  by simpa using (insertDescBy_perm lt x l).mem_iff

theorem insertDescBy_pairwise {α : Type} (lt : α → α → Bool)
    (hasym : ∀ a b, lt a b = true → lt b a = false)
    (hneg : ∀ a b c, lt a b = false → lt b c = false → lt a c = false)
    (x : α) (l : List α) (hl : l.Pairwise (fun a b => lt a b = false)) :
    (insertDescBy lt x l).Pairwise (fun a b => lt a b = false) := by
  induction l with
  | nil => simp [insertDescBy]
  | cons y ys ih =>
    rw [List.pairwise_cons] at hl
    rw [insertDescBy]
    split
    · rename_i hlt
      rw [List.pairwise_cons]
      refine ⟨?_, ih hl.2⟩
      intro z hz
      rcases (mem_insertDescBy lt x z ys).mp hz with hz | hz
      · subst hz
        exact hasym _ _ hlt
      · exact hl.1 z hz
    · rename_i hlt
      rw [Bool.not_eq_true] at hlt
      rw [List.pairwise_cons]
      refine ⟨?_, List.pairwise_cons.mpr hl⟩
      intro z hz
      rcases List.mem_cons.mp hz with hz | hz
      · subst hz
        exact hlt
      · exact hneg _ _ _ hlt (hl.1 z hz)

theorem sortDescBy_pairwise {α : Type} (lt : α → α → Bool)
    (hasym : ∀ a b, lt a b = true → lt b a = false)
    (hneg : ∀ a b c, lt a b = false → lt b c = false → lt a c = false)
    (l : List α) :
    (sortDescBy lt l).Pairwise (fun a b => lt a b = false) := by
  induction l with
  | nil => simp [sortDescBy]
  | cons x xs ih => exact insertDescBy_pairwise lt hasym hneg x _ ih

/-- Negative transitivity follows from transitivity and connectivity. -/
theorem negtrans_of_trans_conn {α : Type} (lt : α → α → Bool)
    (htrans : ∀ a b c, lt a b = true → lt b c = true → lt a c = true)
    (hconn : ∀ a b, lt a b = false → lt b a = false → a = b) :
    ∀ a b c, lt a b = false → lt b c = false → lt a c = false := by
  intro a b c hab hbc
  by_contra hcon
  rw [Bool.not_eq_false] at hcon
  by_cases hba : lt b a = true
  · rw [htrans _ _ _ hba hcon] at hbc
    exact Bool.noConfusion hbc
  · rw [Bool.not_eq_true] at hba
    rw [hconn _ _ hab hba] at hcon
    rw [hcon] at hbc
    exact Bool.noConfusion hbc

/-! ### Tuple comparison, as Python compares sort keys -/

/-- Python tuple comparison, first component then second. -/
def lexLt {α β : Type} (ltA : α → α → Bool) (ltB : β → β → Bool)
    (a b : α × β) : Bool :=
  if ltA a.1 b.1 then true else if ltA b.1 a.1 then false else ltB a.2 b.2

/-- `<` on rationals (Python float comparison, embedded exactly). -/
def ratLt (a b : ℚ) : Bool := decide (a < b)

/-- `<` on naturals (Python int comparison). -/
def natLt (a b : Nat) : Bool := decide (a < b)

theorem ratLt_asym : ∀ a b : ℚ, ratLt a b = true → ratLt b a = false := by
  intro a b h
  simp only [ratLt, decide_eq_true_eq] at h
  simpa [ratLt] using lt_asymm h

theorem ratLt_trans : ∀ a b c : ℚ, ratLt a b = true → ratLt b c = true →
    ratLt a c = true := by
  intro a b c h1 h2
  simp only [ratLt, decide_eq_true_eq] at h1 h2 ⊢
  exact lt_trans h1 h2

theorem ratLt_conn : ∀ a b : ℚ, ratLt a b = false → ratLt b a = false → a = b := by
  intro a b h1 h2
  simp only [ratLt, decide_eq_false_iff_not] at h1 h2
  exact le_antisymm (not_lt.mp h2) (not_lt.mp h1)

theorem natLt_asym : ∀ a b : Nat, natLt a b = true → natLt b a = false := by
  intro a b h
  simp only [natLt, decide_eq_true_eq] at h
  simpa [natLt] using lt_asymm h

theorem natLt_trans : ∀ a b c : Nat, natLt a b = true → natLt b c = true →
    natLt a c = true := by
  intro a b c h1 h2
  simp only [natLt, decide_eq_true_eq] at h1 h2 ⊢
  exact lt_trans h1 h2

theorem natLt_conn : ∀ a b : Nat, natLt a b = false → natLt b a = false → a = b := by
  intro a b h1 h2
  simp only [natLt, decide_eq_false_iff_not] at h1 h2
  exact le_antisymm (not_lt.mp h2) (not_lt.mp h1)

theorem charListLt_asym : ∀ a b : List Char, charListLt a b = true →
    charListLt b a = false := by
  intro a
  induction a with
  | nil =>
    intro b h
    cases b with
    | nil => simp [charListLt] at h
    | cons y ys => simp [charListLt]
  | cons x xs ih =>
    intro b h
    cases b with
    | nil => simp [charListLt] at h
    | cons y ys =>
      by_cases h1 : x < y
      · have h2 : ¬y < x := lt_asymm h1
        simp [charListLt, h1, h2]
      · by_cases h2 : y < x
        · simp [charListLt, h1, h2] at h
        · simp only [charListLt, if_neg h1, if_neg h2] at h ⊢
          exact ih ys h

theorem charListLt_trans : ∀ a b c : List Char, charListLt a b = true →
    charListLt b c = true → charListLt a c = true := by
  intro a
  induction a with
  | nil =>
    intro b c h1 h2
    cases b with
    | nil => simp [charListLt] at h1
    | cons y ys =>
      cases c with
      | nil => simp [charListLt] at h2
      | cons z zs => simp [charListLt]
  | cons x xs ih =>
    intro b c h1 h2
    cases b with
    | nil => simp [charListLt] at h1
    | cons y ys =>
      cases c with
      | nil => simp [charListLt] at h2
      | cons z zs =>
        by_cases hxy : x < y
        · by_cases hyz : y < z
          · simp [charListLt, lt_trans hxy hyz]
          · by_cases hzy : z < y
            · simp [charListLt, hyz, hzy] at h2
            · have hyz' : y = z := le_antisymm (not_lt.mp hzy) (not_lt.mp hyz)
              subst hyz'
              simp [charListLt, hxy]
        · by_cases hyx : y < x
          · simp [charListLt, hxy, hyx] at h1
          · have hxy' : x = y := le_antisymm (not_lt.mp hyx) (not_lt.mp hxy)
            subst hxy'
            simp only [charListLt, if_neg hxy, if_neg hyx] at h1
            by_cases hyz : x < z
            · simp [charListLt, hyz]
            · by_cases hzy : z < x
              · simp [charListLt, hyz, hzy] at h2
              · simp only [charListLt, if_neg hyz, if_neg hzy] at h2 ⊢
                exact ih ys zs h1 h2

theorem charListLt_conn : ∀ a b : List Char, charListLt a b = false →
    charListLt b a = false → a = b := by
  intro a
  induction a with
  | nil =>
    intro b h1 h2
    cases b with
    | nil => rfl
    | cons y ys => simp [charListLt] at h1
  | cons x xs ih =>
    intro b h1 h2
    cases b with
    | nil => simp [charListLt] at h2
    | cons y ys =>
      by_cases hxy : x < y
      · simp [charListLt, hxy] at h1
      · by_cases hyx : y < x
        · simp [charListLt, hyx] at h2
        · have hxy' : x = y := le_antisymm (not_lt.mp hyx) (not_lt.mp hxy)
          subst hxy'
          simp only [charListLt, if_neg hxy, if_neg hyx] at h1 h2
          rw [ih ys h1 h2]

theorem strLt_asym : ∀ a b : String, strLt a b = true → strLt b a = false :=
  fun a b h => charListLt_asym a.data b.data h

theorem strLt_trans : ∀ a b c : String, strLt a b = true → strLt b c = true →
    strLt a c = true :=
  fun a b c h1 h2 => charListLt_trans a.data b.data c.data h1 h2

theorem strLt_conn : ∀ a b : String, strLt a b = false → strLt b a = false → a = b := by
  intro a b h1 h2
  cases a with
  | mk da =>
    cases b with
    | mk db =>
      have : da = db := charListLt_conn da db h1 h2
      rw [this]

theorem lexLt_asym {α β : Type} (ltA : α → α → Bool) (ltB : β → β → Bool)
    (hA : ∀ a b, ltA a b = true → ltA b a = false)
    (hB : ∀ a b, ltB a b = true → ltB b a = false) :
    ∀ a b, lexLt ltA ltB a b = true → lexLt ltA ltB b a = false := by
  intro a b h
  cases hab : ltA a.1 b.1 with
  | true => simp [lexLt, hab, hA _ _ hab]
  | false =>
    cases hba : ltA b.1 a.1 with
    | true => simp [lexLt, hab, hba] at h
    | false =>
      simp only [lexLt, hab, hba] at h ⊢
      simp only [Bool.false_eq_true, if_false] at h ⊢
      simp [hB _ _ h]

theorem lexLt_trans {α β : Type} (ltA : α → α → Bool) (ltB : β → β → Bool)
    (hAt : ∀ a b c, ltA a b = true → ltA b c = true → ltA a c = true)
    (hAc : ∀ a b, ltA a b = false → ltA b a = false → a = b)
    (hBt : ∀ a b c, ltB a b = true → ltB b c = true → ltB a c = true) :
    ∀ a b c, lexLt ltA ltB a b = true → lexLt ltA ltB b c = true →
      lexLt ltA ltB a c = true := by
  intro a b c h1 h2
  unfold lexLt at h1 h2 ⊢
  by_cases hab : ltA a.1 b.1 = true
  · by_cases hbc : ltA b.1 c.1 = true
    · simp [hAt _ _ _ hab hbc]
    · rw [Bool.not_eq_true] at hbc
      by_cases hcb : ltA c.1 b.1 = true
      · simp [hbc, hcb] at h2
      · rw [Bool.not_eq_true] at hcb
        have : b.1 = c.1 := hAc _ _ hbc hcb
        rw [← this]
        simp [hab]
  · rw [Bool.not_eq_true] at hab
    by_cases hba : ltA b.1 a.1 = true
    · simp [hab, hba] at h1
    · rw [Bool.not_eq_true] at hba
      have he : a.1 = b.1 := hAc _ _ hab hba
      rw [if_neg (by simp [hab]), if_neg (by simp [hba])] at h1
      by_cases hbc : ltA b.1 c.1 = true
      · rw [he]
        simp [hbc]
      · rw [Bool.not_eq_true] at hbc
        by_cases hcb : ltA c.1 b.1 = true
        · simp [hbc, hcb] at h2
        · rw [Bool.not_eq_true] at hcb
          rw [if_neg (by simp [hbc]), if_neg (by simp [hcb])] at h2
          rw [he, if_neg (by simp [hbc]), if_neg (by simp [hcb])]
          exact hBt _ _ _ h1 h2

theorem lexLt_conn {α β : Type} (ltA : α → α → Bool) (ltB : β → β → Bool)
    (hAc : ∀ a b, ltA a b = false → ltA b a = false → a = b)
    (hBc : ∀ a b, ltB a b = false → ltB b a = false → a = b) :
    ∀ a b, lexLt ltA ltB a b = false → lexLt ltA ltB b a = false → a = b := by
  intro a b h1 h2
  cases hab : ltA a.1 b.1 with
  | true => simp [lexLt, hab] at h1
  | false =>
    cases hba : ltA b.1 a.1 with
    | true => simp [lexLt, hab, hba] at h2
    | false =>
      simp only [lexLt, hab, hba, Bool.false_eq_true, if_false] at h1 h2
      exact Prod.ext (hAc _ _ hab hba) (hBc _ _ h1 h2)

/-! ### Dispersion analyzer -/

/-- Sort key order for `(pstdev, province)` tuples (dispersion embedded as
the population variance, see the module docstring). -/
def tpLt : (ℚ × String) → (ℚ × String) → Bool := lexLt ratLt strLt

/-- Sort key order for `(pstdev, province, month)` tuples. -/
def mdLt : (ℚ × String × Nat) → (ℚ × String × Nat) → Bool :=
  lexLt ratLt (lexLt strLt natLt)

theorem tpLt_asym : ∀ a b, tpLt a b = true → tpLt b a = false :=
  lexLt_asym _ _ ratLt_asym strLt_asym

theorem tpLt_negtrans : ∀ a b c, tpLt a b = false → tpLt b c = false →
    tpLt a c = false :=
  negtrans_of_trans_conn tpLt (lexLt_trans _ _ ratLt_trans ratLt_conn strLt_trans)
    (lexLt_conn _ _ ratLt_conn strLt_conn)

theorem mdLt_asym : ∀ a b, mdLt a b = true → mdLt b a = false :=
  lexLt_asym _ _ ratLt_asym (lexLt_asym _ _ strLt_asym natLt_asym)

theorem mdLt_negtrans : ∀ a b c, mdLt a b = false → mdLt b c = false →
    mdLt a c = false :=
  negtrans_of_trans_conn mdLt
    (lexLt_trans _ _ ratLt_trans ratLt_conn
      (lexLt_trans _ _ strLt_trans strLt_conn natLt_trans))
    (lexLt_conn _ _ ratLt_conn (lexLt_conn _ _ strLt_conn natLt_conn))

/-- `compute_top_provinces`: skip provinces with fewer than 2 cities, pair
each remaining province's dispersion (population variance of the city
annual means) with its name, sort the tuples descending, and return the
first `count` province names (default 2 in the source). -/
def compute_top_provinces (annual : Annual) (count : Nat) : List String :=
  ((sortDescBy tpLt (annual.filterMap (fun pc =>
    if pc.2.length < 2 then none
    else some (pvariance (pc.2.map Prod.snd), pc.1)))).take count).map Prod.snd

/-- `months[month].append(temp)` on a `defaultdict(list)`. -/
def alAppendVal (m : List (Nat × List ℚ)) (k : Nat) (v : ℚ) : List (Nat × List ℚ) :=
  match m with
  | [] => [(k, [v])]
  | (k', vs) :: rest =>
    if k' = k then (k', vs ++ [v]) :: rest else (k', vs) :: alAppendVal rest k v

/-- The per-province month → city-values accumulation loop of
`compute_monthly_dispersion`. -/
def monthlyAccum (cms : CityMap) : List (Nat × List ℚ) :=
  cms.foldl (fun months cm => cm.2.foldl (fun a mt => alAppendVal a mt.1 mt.2) months) []

/-- `compute_monthly_dispersion`: per province, collect the city values of
every month; keep months with at least 2 values, pair the dispersion
(population variance) with province and month, and sort all entries
descending. -/
def compute_monthly_dispersion (t : PCM) : List (ℚ × String × Nat) :=
  sortDescBy mdLt (t.flatMap (fun pc =>
    (monthlyAccum pc.2).filterMap (fun mt =>
      if mt.2.length < 2 then none else some (pvariance mt.2, pc.1, mt.1))))

/-- `selected_province = monthly_dispersion[0][1]` (line 174 of the source),
`none` when the list is empty. -/
def selected_province (md : List (ℚ × String × Nat)) : Option String :=
  md.head?.map (fun e => e.2.1)

/-- `[month for _, province, month in monthly_dispersion if province ==
selected_province][:3]` (line 175 of the source). -/
def months_for_selected (md : List (ℚ × String × Nat)) (p : String) : List Nat :=
  (md.filterMap (fun e => if e.2.1 = p then some e.2.2 else none)).take 3

/-- The values collected for month `m` across the cities of one province, in
city/iteration order — the list `months[m]` holds after the accumulation
loops. -/
def monthTemps (cms : CityMap) (m : Nat) : List ℚ :=
  cms.flatMap (fun cm => cm.2.filterMap (fun mt => if mt.1 = m then some mt.2 else none))

theorem alAppendVal_get_same (ms : List (Nat × List ℚ)) (k : Nat) (v : ℚ) :
    alGet (alAppendVal ms k v) k = some ((alGet ms k).getD [] ++ [v]) := by
  induction ms with
  | nil => simp [alAppendVal, alGet]
  | cons hd tl ih =>
    obtain ⟨k0, vs0⟩ := hd
    by_cases h0 : k0 = k <;> simp [alAppendVal, alGet, h0, ih]

theorem alAppendVal_get_ne (ms : List (Nat × List ℚ)) (k k' : Nat) (v : ℚ)
    (h : k ≠ k') : alGet (alAppendVal ms k v) k' = alGet ms k' := by
  induction ms with
  | nil => simp [alAppendVal, alGet, h]
  | cons hd tl ih =>
    obtain ⟨k0, vs0⟩ := hd
    by_cases h0 : k0 = k
    · subst h0
      simp [alAppendVal, alGet, h]
    · simp [alAppendVal, alGet, h0, ih]

theorem alAppendVal_keys_sub (ms : List (Nat × List ℚ)) (k : Nat) (v : ℚ) :
    ∀ k', k' ∈ alKeys (alAppendVal ms k v) → k' = k ∨ k' ∈ alKeys ms := by
  induction ms with
  | nil => simp [alAppendVal, alKeys]
  | cons hd tl ih =>
    obtain ⟨k0, vs0⟩ := hd
    intro k' hk'
    by_cases h0 : k0 = k
    · subst h0
      simp [alAppendVal, alKeys] at hk' ⊢
      tauto
    · simp [alAppendVal, alKeys, h0] at hk' ⊢
      rcases hk' with h | h
      · tauto
      · rcases ih k' (by simpa [alKeys] using h) with h1 | h1
        · tauto
        · simp [alKeys] at h1
          tauto

theorem alAppendVal_keys_nodup (ms : List (Nat × List ℚ)) (k : Nat) (v : ℚ)
    (h : (alKeys ms).Nodup) : (alKeys (alAppendVal ms k v)).Nodup := by
  induction ms with
  | nil => simp [alAppendVal, alKeys]
  | cons hd tl ih =>
    obtain ⟨k0, vs0⟩ := hd
    simp only [alKeys, List.map_cons, List.nodup_cons] at h
    by_cases h0 : k0 = k
    · subst h0
      simpa [alAppendVal, alKeys, List.nodup_cons] using h
    · simp only [alAppendVal, h0, if_false, alKeys, List.map_cons, List.nodup_cons]
      refine ⟨fun hc => ?_, ih h.2⟩
      rcases alAppendVal_keys_sub tl k v k0 hc with h1 | h1
      · exact h0 h1
      · exact h.1 (by simpa [alKeys] using h1)

theorem cityMonthFold_get (mts : MonthMap) (m : Nat) :
    ∀ acc : List (Nat × List ℚ),
      alGet (mts.foldl (fun a mt => alAppendVal a mt.1 mt.2) acc) m =
        if (mts.filterMap (fun mt => if mt.1 = m then some mt.2 else none)).isEmpty
        then alGet acc m
        else some ((alGet acc m).getD [] ++
          mts.filterMap (fun mt => if mt.1 = m then some mt.2 else none)) := by
  induction mts with
  | nil => intro acc; simp
  | cons mt rest ih =>
    intro acc
    obtain ⟨m0, v0⟩ := mt
    simp only [List.foldl_cons]
    rw [ih (alAppendVal acc m0 v0)]
    by_cases hm : m0 = m
    · subst hm
      have hfm : List.filterMap (fun mt => if mt.1 = m0 then some mt.2 else none)
          ((m0, v0) :: rest) =
          v0 :: rest.filterMap (fun mt => if mt.1 = m0 then some mt.2 else none) := by
        simp
      rw [hfm]
      rw [show ((v0 :: rest.filterMap
          (fun mt => if mt.1 = m0 then some mt.2 else none)).isEmpty) = false from by simp]
      by_cases hE : (rest.filterMap (fun mt => if mt.1 = m0 then some mt.2 else none)).isEmpty
      · have hE2 : rest.filterMap (fun mt => if mt.1 = m0 then some mt.2 else none) = [] := by
          simpa using hE
        rw [if_pos hE, alAppendVal_get_same, hE2]
        simp
      · rw [if_neg hE, alAppendVal_get_same]
        simp [List.append_assoc]
    · rw [alAppendVal_get_ne acc m0 m v0 hm]
      have hfm : List.filterMap (fun mt => if mt.1 = m then some mt.2 else none)
          ((m0, v0) :: rest) =
          rest.filterMap (fun mt => if mt.1 = m then some mt.2 else none) := by
        simp [hm]
      rw [hfm]

theorem monthlyAccum_fold_get (cms : CityMap) (m : Nat) :
    ∀ acc : List (Nat × List ℚ),
      alGet (cms.foldl (fun months cm =>
          cm.2.foldl (fun a mt => alAppendVal a mt.1 mt.2) months) acc) m =
        if (monthTemps cms m).isEmpty then alGet acc m
        else some ((alGet acc m).getD [] ++ monthTemps cms m) := by
  induction cms with
  | nil => intro acc; simp [monthTemps]
  | cons cm rest ih =>
    intro acc
    simp only [List.foldl_cons]
    rw [ih _, cityMonthFold_get cm.2 m acc]
    have hsplit : monthTemps (cm :: rest) m =
        cm.2.filterMap (fun mt => if mt.1 = m then some mt.2 else none) ++
          monthTemps rest m := by
      simp [monthTemps]
    rw [hsplit]
    by_cases h1 : (cm.2.filterMap (fun mt => if mt.1 = m then some mt.2 else none)).isEmpty
    · have h1e : cm.2.filterMap (fun mt => if mt.1 = m then some mt.2 else none) = [] := by
        simpa using h1
      rw [h1e]
      simp
    · have h1e : cm.2.filterMap (fun mt => if mt.1 = m then some mt.2 else none) ≠ [] := by
        simpa using h1
      rw [if_neg h1]
      have hR : ((cm.2.filterMap (fun mt => if mt.1 = m then some mt.2 else none) ++
          monthTemps rest m).isEmpty) = false := by
        simp [h1e]
      rw [hR]
      simp only [Bool.false_eq_true, if_false]
      by_cases h2 : (monthTemps rest m).isEmpty
      · have h2e : monthTemps rest m = [] := by simpa using h2
        rw [h2e, if_pos (by simp : ([] : List ℚ).isEmpty = true)]
        simp
      · rw [if_neg h2]
        simp [List.append_assoc]

theorem monthlyAccum_get (cms : CityMap) (m : Nat) :
    alGet (monthlyAccum cms) m =
      if (monthTemps cms m).isEmpty then none else some (monthTemps cms m) := by
  rw [monthlyAccum, monthlyAccum_fold_get cms m []]
  cases h : (monthTemps cms m).isEmpty <;> simp [alGet, h]

theorem monthlyAccum_keys_nodup (cms : CityMap) : (alKeys (monthlyAccum cms)).Nodup := by
  rw [monthlyAccum]
  have inner : ∀ (mts : MonthMap) (acc : List (Nat × List ℚ)), (alKeys acc).Nodup →
      (alKeys (mts.foldl (fun a mt => alAppendVal a mt.1 mt.2) acc)).Nodup := by
    intro mts
    induction mts with
    | nil => intro acc h; exact h
    | cons mt rest ih =>
      intro acc h
      exact ih _ (alAppendVal_keys_nodup acc mt.1 mt.2 h)
  have outer : ∀ (l : CityMap) (acc : List (Nat × List ℚ)), (alKeys acc).Nodup →
      (alKeys (l.foldl (fun months cm =>
        cm.2.foldl (fun a mt => alAppendVal a mt.1 mt.2) months) acc)).Nodup := by
    intro l
    induction l with
    | nil => intro acc h; exact h
    | cons cm rest ih =>
      intro acc h
      exact ih _ (inner cm.2 acc h)
  exact outer cms [] (by simp [alKeys])

/-- The unsorted `(dispersion, province)` list of `compute_top_provinces`. -/
def tpEntries (annual : Annual) : List (ℚ × String) :=
  annual.filterMap (fun pc =>
    if pc.2.length < 2 then none
    else some (pvariance (pc.2.map Prod.snd), pc.1))

theorem tpEntries_mem (annual : Annual) (d : ℚ) (p : String) :
    (d, p) ∈ tpEntries annual ↔
      ∃ cms, (p, cms) ∈ annual ∧ 2 ≤ cms.length ∧
        d = pvariance (cms.map Prod.snd) := by
  rw [tpEntries, List.mem_filterMap]
  constructor
  · rintro ⟨⟨pp, cms⟩, hpc, hsome⟩
    dsimp only at hsome
    by_cases hlen : cms.length < 2
    · rw [if_pos hlen] at hsome
      exact absurd hsome (by simp)
    · rw [if_neg hlen] at hsome
      simp only [Option.some.injEq, Prod.mk.injEq] at hsome
      obtain ⟨hd, hp⟩ := hsome
      subst hp
      exact ⟨cms, hpc, by omega, hd.symm⟩
  · rintro ⟨cms, hmem, hlen, hd⟩
    refine ⟨(p, cms), hmem, ?_⟩
    dsimp only
    rw [if_neg (by omega), hd]

/-- C3: `compute_top_provinces` considers exactly the provinces with at
least 2 cities having an annual mean, pairing each with the population
dispersion of its city means; the paired list is sorted descending by the
`(dispersion, province)` tuple (so ties are broken by descending
province-name code-point order), and the result is the names of the first
`count` entries of that descending list.  For dispersions
`{A: 25, B: 25, C: 9}` (pstdev `{5, 5, 3}`), the top-2 selection is
`["B", "A"]` — both A and B, ahead of C, which is excluded. -/
theorem claim_C3_top_provinces (annual : Annual) (count : Nat) :
    (sortDescBy tpLt (tpEntries annual)).Pairwise (fun a b => tpLt a b = false) ∧
    (sortDescBy tpLt (tpEntries annual)).Perm (tpEntries annual) ∧
    compute_top_provinces annual count =
      ((sortDescBy tpLt (tpEntries annual)).take count).map Prod.snd ∧
    (∀ d p, (d, p) ∈ tpEntries annual ↔
      ∃ cms, (p, cms) ∈ annual ∧ 2 ≤ cms.length ∧
        d = pvariance (cms.map Prod.snd)) ∧
    compute_top_provinces
      [("A", [("a1", 0), ("a2", 10)]), ("B", [("b1", 20), ("b2", 30)]),
       ("C", [("c1", 0), ("c2", 6)])] 2 = ["B", "A"] ∧
    "C" ∉ compute_top_provinces
      [("A", [("a1", 0), ("a2", 10)]), ("B", [("b1", 20), ("b2", 30)]),
       ("C", [("c1", 0), ("c2", 6)])] 2 := by
  have hconc : compute_top_provinces
      [("A", [("a1", 0), ("a2", 10)]), ("B", [("b1", 20), ("b2", 30)]),
       ("C", [("c1", 0), ("c2", 6)])] 2 = ["B", "A"] := by
    have hAB : strLt "A" "B" = true := by decide
    norm_num [compute_top_provinces, pvariance, listMean, listSum, sortDescBy,
      insertDescBy, tpLt, lexLt, ratLt, strLt, hAB]
    decide
  refine ⟨sortDescBy_pairwise tpLt tpLt_asym tpLt_negtrans _,
    sortDescBy_perm tpLt _, rfl, tpEntries_mem annual, hconc, ?_⟩
  rw [hconc]
  decide

/-- The unsorted `(dispersion, province, month)` list of
`compute_monthly_dispersion` (flattened in province-iteration order). -/
def mdEntries (t : PCM) : List (ℚ × String × Nat) :=
  t.flatMap (fun pc => (monthlyAccum pc.2).filterMap (fun mt =>
    if mt.2.length < 2 then none else some (pvariance mt.2, pc.1, mt.1)))

theorem compute_monthly_dispersion_eq (t : PCM) :
    compute_monthly_dispersion t = sortDescBy mdLt (mdEntries t) := rfl

theorem mdEntries_mem (t : PCM) (d : ℚ) (p : String) (m : Nat) :
    (d, p, m) ∈ mdEntries t ↔
      ∃ cms, (p, cms) ∈ t ∧ 2 ≤ (monthTemps cms m).length ∧
        d = pvariance (monthTemps cms m) := by
  rw [mdEntries, List.mem_flatMap]
  constructor
  · rintro ⟨⟨pp, cms⟩, hpc, hin⟩
    rw [List.mem_filterMap] at hin
    obtain ⟨⟨mm, ts⟩, hmt, hsome⟩ := hin
    dsimp only at hsome
    by_cases hlen : ts.length < 2
    · rw [if_pos hlen] at hsome
      exact absurd hsome (by simp)
    · rw [if_neg hlen] at hsome
      simp only [Option.some.injEq, Prod.mk.injEq] at hsome
      obtain ⟨hd, hp, hm⟩ := hsome
      have hget := mem_alGet (monthlyAccum_keys_nodup cms) hmt
      rw [monthlyAccum_get] at hget
      by_cases hE : (monthTemps cms mm).isEmpty
      · rw [if_pos hE] at hget
        exact absurd hget (by simp)
      · rw [if_neg hE] at hget
        have hts : monthTemps cms mm = ts := by
          simpa using hget
        refine ⟨cms, ?_, ?_, ?_⟩
        · rw [← hp]; exact hpc
        · rw [← hm, hts]; omega
        · rw [← hm, hts, hd]
  · rintro ⟨cms, hmem, hlen, hd⟩
    have hE : ¬(monthTemps cms m).isEmpty = true := by
      cases hmt : monthTemps cms m with
      | nil => rw [hmt] at hlen; simp at hlen
      | cons a l => simp [hmt]
    have hget : alGet (monthlyAccum cms) m = some (monthTemps cms m) := by
      rw [monthlyAccum_get, if_neg hE]
    refine ⟨(p, cms), hmem, ?_⟩
    rw [List.mem_filterMap]
    refine ⟨(m, monthTemps cms m), alGet_mem hget, ?_⟩
    dsimp only
    rw [if_neg (by omega), hd]

/-- The `(province, month)` key of a dispersion entry. -/
def projPM (e : ℚ × String × Nat) : String × Nat := (e.2.1, e.2.2)

theorem mdBlock_sublist (p : String) (l : List (Nat × List ℚ)) :
    ((l.filterMap (fun mt =>
      if mt.2.length < 2 then none else some (pvariance mt.2, p, mt.1))).map
        projPM).Sublist ((alKeys l).map (fun m => (p, m))) := by
  induction l with
  | nil => simp
  | cons mt rest ih =>
    by_cases hlen : mt.2.length < 2
    · have hfm : (mt :: rest).filterMap (fun mt =>
          if mt.2.length < 2 then none else some (pvariance mt.2, p, mt.1)) =
          rest.filterMap (fun mt =>
            if mt.2.length < 2 then none else some (pvariance mt.2, p, mt.1)) := by
        simp [hlen]
      rw [hfm]
      simp only [alKeys, List.map_cons]
      exact ih.cons _
    · have hfm : (mt :: rest).filterMap (fun mt =>
          if mt.2.length < 2 then none else some (pvariance mt.2, p, mt.1)) =
          (pvariance mt.2, p, mt.1) :: rest.filterMap (fun mt =>
            if mt.2.length < 2 then none else some (pvariance mt.2, p, mt.1)) := by
        simp [hlen]
      rw [hfm]
      simp only [List.map_cons, alKeys, projPM]
      exact ih.cons₂ _

theorem mdBlock_nodup (p : String) (cms : CityMap) :
    (((monthlyAccum cms).filterMap (fun mt =>
      if mt.2.length < 2 then none else some (pvariance mt.2, p, mt.1))).map
        projPM).Nodup := by
  refine (mdBlock_sublist p (monthlyAccum cms)).nodup ?_
  refine (monthlyAccum_keys_nodup cms).map ?_
  intro a b hab
  simpa using hab

theorem mdBlock_mem_fst (p : String) (cms : CityMap) (x : String × Nat)
    (hx : x ∈ ((monthlyAccum cms).filterMap (fun mt =>
      if mt.2.length < 2 then none else some (pvariance mt.2, p, mt.1))).map
        projPM) : x.1 = p := by
  rw [List.mem_map] at hx
  obtain ⟨e, he, hproj⟩ := hx
  rw [List.mem_filterMap] at he
  obtain ⟨mt, hmt, hsome⟩ := he
  by_cases hlen : mt.2.length < 2
  · rw [if_pos hlen] at hsome
    exact absurd hsome (by simp)
  · rw [if_neg hlen] at hsome
    simp only [Option.some.injEq] at hsome
    rw [← hproj, ← hsome, projPM]

theorem mdEntries_mem_fst (t : PCM) (x : String × Nat)
    (hx : x ∈ (mdEntries t).map projPM) : x.1 ∈ alKeys t := by
  rw [mdEntries, List.map_flatMap, List.mem_flatMap] at hx
  obtain ⟨pc, hpc, hin⟩ := hx
  rw [mdBlock_mem_fst pc.1 pc.2 x hin]
  exact List.mem_map_of_mem Prod.fst hpc

theorem mdEntries_pairs_nodup (t : PCM) (h1 : (alKeys t).Nodup) :
    ((mdEntries t).map projPM).Nodup := by
  induction t with
  | nil => simp [mdEntries]
  | cons pc rest ih =>
    simp only [alKeys, List.map_cons, List.nodup_cons] at h1
    have hsplit : (mdEntries (pc :: rest)).map projPM =
        ((monthlyAccum pc.2).filterMap (fun mt =>
          if mt.2.length < 2 then none else some (pvariance mt.2, pc.1, mt.1))).map
            projPM ++ (mdEntries rest).map projPM := by
      simp [mdEntries]
    rw [hsplit]
    refine List.Nodup.append (mdBlock_nodup pc.1 pc.2) (ih h1.2) ?_
    intro x hxb hxr
    have h2 := mdBlock_mem_fst pc.1 pc.2 x hxb
    have h3 := mdEntries_mem_fst rest x hxr
    rw [h2] at h3
    exact h1.1 (by simpa [alKeys] using h3)

theorem months_filterMap_nodup (l : List (ℚ × String × Nat)) (p : String)
    (h : (l.map projPM).Nodup) :
    (l.filterMap (fun e => if e.2.1 = p then some e.2.2 else none)).Nodup := by
  induction l with
  | nil => simp
  | cons e rest ih =>
    simp only [List.map_cons, List.nodup_cons] at h
    by_cases he : e.2.1 = p
    · have hfm : (e :: rest).filterMap (fun e =>
          if e.2.1 = p then some e.2.2 else none) =
          e.2.2 :: rest.filterMap (fun e =>
            if e.2.1 = p then some e.2.2 else none) := by
        simp [he]
      rw [hfm]
      refine List.nodup_cons.mpr ⟨?_, ih h.2⟩
      intro hc
      rw [List.mem_filterMap] at hc
      obtain ⟨e2, he2, hsome⟩ := hc
      by_cases he2p : e2.2.1 = p
      · rw [if_pos he2p] at hsome
        simp only [Option.some.injEq] at hsome
        refine h.1 ?_
        have : projPM e2 = projPM e := by
          rw [projPM, projPM, he2p, he, hsome]
        rw [← this]
        exact List.mem_map_of_mem projPM he2
      · rw [if_neg he2p] at hsome
        exact absurd hsome (by simp)
    · have hfm : (e :: rest).filterMap (fun e =>
          if e.2.1 = p then some e.2.2 else none) =
          rest.filterMap (fun e =>
            if e.2.1 = p then some e.2.2 else none) := by
        simp [he]
      rw [hfm]
      exact ih h.2

/-- Concrete table for the C2 example: province P has months 1 and 2 with
city values `[0, 8]` (variance 16, pstdev 4) and `[0, 12]` (variance 36,
pstdev 6); province Q has month 1 with values `[0, 2]` (variance 1). -/
def exTableC2 : PCM :=
  [("P", [("c1", [(1, 0), (2, 0)]), ("c2", [(1, 8), (2, 12)])]),
   ("Q", [("d1", [(1, 0)]), ("d2", [(1, 2)])])]

/-- C2: `compute_monthly_dispersion` returns a list sorted descending by the
`(dispersion, province, month)` key that is a permutation of the collected
entries; an entry for `(p, m)` exists iff month `m` of province `p` received
values from at least 2 cities, its dispersion being the population variance
of those values, and the (province, month) keys are pairwise distinct —
exactly one entry per qualifying pair.  The selected province is the
province of the first (highest) entry, and the chosen months are the first
at most 3 (distinct) months of that province in the descending order.  For
province P with month-1 variance 16 (pstdev 4) and month-2 variance 36
(pstdev 6) and no other province exceeding it, P is selected and month 2
precedes month 1. -/
theorem claim_C2_monthly_dispersion (t : PCM) (h1 : (alKeys t).Nodup) :
    (compute_monthly_dispersion t).Pairwise (fun a b => mdLt a b = false) ∧
    (compute_monthly_dispersion t).Perm (mdEntries t) ∧
    (∀ d p m, (d, p, m) ∈ compute_monthly_dispersion t ↔
      ∃ cms, (p, cms) ∈ t ∧ 2 ≤ (monthTemps cms m).length ∧
        d = pvariance (monthTemps cms m)) ∧
    ((compute_monthly_dispersion t).map projPM).Nodup ∧
    (∀ e rest, compute_monthly_dispersion t = e :: rest →
      selected_province (compute_monthly_dispersion t) = some e.2.1) ∧
    (∀ p, (months_for_selected (compute_monthly_dispersion t) p).Nodup ∧
      (months_for_selected (compute_monthly_dispersion t) p).length ≤ 3) ∧
    (compute_monthly_dispersion exTableC2 =
        [(36, "P", 2), (16, "P", 1), (1, "Q", 1)] ∧
      selected_province (compute_monthly_dispersion exTableC2) = some "P" ∧
      months_for_selected (compute_monthly_dispersion exTableC2) "P" = [2, 1]) := by
  have hperm := sortDescBy_perm mdLt (mdEntries t)
  have hnd : ((compute_monthly_dispersion t).map projPM).Nodup := by
    rw [compute_monthly_dispersion_eq]
    exact ((hperm.map projPM).nodup_iff).mpr (mdEntries_pairs_nodup t h1)
  have hconc : compute_monthly_dispersion exTableC2 =
      [(36, "P", 2), (16, "P", 1), (1, "Q", 1)] := by
    norm_num [exTableC2, compute_monthly_dispersion, monthlyAccum, alAppendVal,
      pvariance, listMean, listSum, sortDescBy, insertDescBy, mdLt, lexLt,
      ratLt, natLt]
  refine ⟨?_, ?_, ?_, hnd, ?_, ?_, hconc, ?_, ?_⟩
  · rw [compute_monthly_dispersion_eq]
    exact sortDescBy_pairwise mdLt mdLt_asym mdLt_negtrans _
  · rw [compute_monthly_dispersion_eq]
    exact hperm
  · intro d p m
    rw [compute_monthly_dispersion_eq, hperm.mem_iff]
    exact mdEntries_mem t d p m
  · intro e rest h
    rw [selected_province, h]
    rfl
  · intro p
    exact ⟨(List.take_sublist 3 _).nodup
        (months_filterMap_nodup (compute_monthly_dispersion t) p hnd),
      List.length_take_le 3 _⟩
  · rw [selected_province, hconc]
    rfl
  · rw [hconc]
    decide

/-- Witness for `claim_C2_monthly_dispersion` at the concrete table
`exTableC2`. -/
theorem claim_C2_monthly_dispersion_witness :
    (alKeys exTableC2).Nodup ∧
    ((compute_monthly_dispersion exTableC2).Pairwise
        (fun a b => mdLt a b = false) ∧
      (compute_monthly_dispersion exTableC2).Perm (mdEntries exTableC2) ∧
      (∀ d p m, (d, p, m) ∈ compute_monthly_dispersion exTableC2 ↔
        ∃ cms, (p, cms) ∈ exTableC2 ∧ 2 ≤ (monthTemps cms m).length ∧
          d = pvariance (monthTemps cms m)) ∧
      ((compute_monthly_dispersion exTableC2).map projPM).Nodup ∧
      (∀ e rest, compute_monthly_dispersion exTableC2 = e :: rest →
        selected_province (compute_monthly_dispersion exTableC2) = some e.2.1) ∧
      (∀ p, (months_for_selected (compute_monthly_dispersion exTableC2) p).Nodup ∧
        (months_for_selected (compute_monthly_dispersion exTableC2) p).length ≤ 3) ∧
      (compute_monthly_dispersion exTableC2 =
          [(36, "P", 2), (16, "P", 1), (1, "Q", 1)] ∧
        selected_province (compute_monthly_dispersion exTableC2) = some "P" ∧
        months_for_selected (compute_monthly_dispersion exTableC2) "P" = [2, 1])) :=
  ⟨by decide, claim_C2_monthly_dispersion exTableC2 (by decide)⟩

/-! ### Chart renderer (`render_bar_chart_svg`) -/

/-- The keyword layout parameters of `render_bar_chart_svg`, with the
source's defaults in `defaultParams`. -/
structure ChartParams where
  width : ℚ
  bar_height : ℚ
  label_width : ℚ
  margin : ℚ

/-- `width=1200, bar_height=18, label_width=140, margin=30`. -/
def defaultParams : ChartParams := ⟨1200, 18, 140, 30⟩

/-- The emitted SVG document, one constructor per emitted element, carrying
the numeric attributes the source interpolates into each tag (`numText` is
the value annotation, rendered by the source with two decimals). -/
inductive SvgElem where
  | svgOpen (width height : ℚ)
  | styleDecl
  | textEl (x y : ℚ) (anchor : String) (fontSize : Option ℚ) (content : String)
  | lineEl (x1 y1 x2 y2 : ℚ) (stroke : String) (dashed : Bool)
  | rectEl (x y w h : ℚ) (fill : String)
  | numText (x y : ℚ) (value : ℚ)
  | svgClose

/-- `max((len(label) for label in labels), default=0)`. -/
def max_label_len (labels : List String) : Nat :=
  (labels.map String.length).foldl max 0

/-- `label_width = max(label_width, min(240, max_label_len * 12))`. -/
def eff_label_width (p : ChartParams) (labels : List String) : ℚ :=
  max p.label_width (min 240 ((max_label_len labels : ℚ) * 12))

/-- `chart_width = width - label_width - margin * 2`. -/
def chart_width (p : ChartParams) (labels : List String) : ℚ :=
  p.width - eff_label_width p labels - p.margin * 2

/-- `height = margin * 2 + len(labels) * (bar_height + 6) + 40`. -/
def chart_height (p : ChartParams) (labels : List String) : ℚ :=
  p.margin * 2 + (labels.length : ℚ) * (p.bar_height + 6) + 40

/-- `min(values)` — `none` on an empty list, where Python raises. -/
def minList? : List ℚ → Option ℚ
  | [] => none
  | x :: xs => some (xs.foldl min x)

/-- `max(values)` — `none` on an empty list, where Python raises. -/
def maxList? : List ℚ → Option ℚ
  | [] => none
  | x :: xs => some (xs.foldl max x)

/-- The degenerate-domain widening: `if min_val == max_val: min_val -= 1;
max_val += 1`. -/
def adjusted_domain (mn mx : ℚ) : ℚ × ℚ :=
  if mn = mx then (mn - 1, mx + 1) else (mn, mx)

/-- `scale(val) = (val - min_val) / (max_val - min_val) * chart_width`. -/
def scaleVal (mn mx cw v : ℚ) : ℚ := (v - mn) / (mx - mn) * cw

/-- `zero_x = label_width + margin + scale(0)`; `none` when `values` is
empty (Python raises at `min(values)`). -/
def zero_x (p : ChartParams) (labels : List String) (values : List ℚ) :
    Option ℚ :=
  match minList? values, maxList? values with
  | some mn0, some mx0 =>
    some (eff_label_width p labels + p.margin +
      scaleVal (adjusted_domain mn0 mx0).1 (adjusted_domain mn0 mx0).2
        (chart_width p labels) 0)
  | _, _ => none

/-- `render_bar_chart_svg`: the full element list emitted by the source —
header (svg tag, style, title, axis line, dashed zero line), one
label/bar/value triple per `zip(labels, values)` entry stacked at
`y = margin + 30 + i*(bar_height + 6)`, and the footer (axis caption and
closing tag).  `none` when `values` is empty (Python raises at
`min(values)` before any output). -/
def render_bar_chart_svg (title : String) (labels : List String)
    (values : List ℚ) (xlabel unit : String) (p : ChartParams) :
    Option (List SvgElem) :=
  match minList? values, maxList? values with
  | some mn0, some mx0 =>
    let lw := eff_label_width p labels
    let cw := p.width - lw - p.margin * 2
    let h := p.margin * 2 + (labels.length : ℚ) * (p.bar_height + 6) + 40
    let dom := adjusted_domain mn0 mx0
    let sc := fun v => (v - dom.1) / (dom.2 - dom.1) * cw
    let zx := lw + p.margin + sc 0
    some ([SvgElem.svgOpen p.width h, SvgElem.styleDecl,
      SvgElem.textEl (p.width / 2) p.margin "middle" (some 16) title,
      SvgElem.lineEl (lw + p.margin) (h - p.margin - 30) (p.width - p.margin)
        (h - p.margin - 30) "#333" false,
      SvgElem.lineEl zx (p.margin + 20) zx (h - p.margin - 30) "#666" true] ++
      ((labels.zip values).enum).flatMap (fun iv =>
        let y := p.margin + 30 + (iv.1 : ℚ) * (p.bar_height + 6)
        let bar_len := sc iv.2.2 - sc 0
        let bar_x := if 0 ≤ bar_len then zx else zx + bar_len
        [SvgElem.textEl (lw + p.margin - 6) (y + p.bar_height - 4) "end" none
          iv.2.1,
         SvgElem.rectEl bar_x y |bar_len| p.bar_height "#4C78A8",
         SvgElem.numText (bar_x + |bar_len| + 4) (y + p.bar_height - 4)
          iv.2.2]) ++
      [SvgElem.textEl (p.width - p.margin) (h - p.margin) "end" none
        (xlabel ++ " (" ++ unit ++ ")"), SvgElem.svgClose])
  | _, _ => none

/-- Bar elements of the document. -/
def isRect : SvgElem → Bool
  | SvgElem.rectEl .. => true
  | _ => false

theorem foldl_min_le (l : List ℚ) : ∀ x : ℚ, l.foldl min x ≤ x := by
  induction l with
  | nil => intro x; simp
  | cons a rest ih =>
    intro x
    simp only [List.foldl_cons]
    exact le_trans (ih (min x a)) (min_le_left x a)

theorem le_foldl_max (l : List ℚ) : ∀ x : ℚ, x ≤ l.foldl max x := by
  induction l with
  | nil => intro x; simp
  | cons a rest ih =>
    intro x
    simp only [List.foldl_cons]
    exact le_trans (le_max_left x a) (ih (max x a))

/-- C9: the value domain is `[min(values), max(values)]`, widened by `±1`
exactly when degenerate, and for every non-empty value list the adjusted
domain satisfies `min < max`, so the scaling denominator `max - min` is
non-zero and coordinate scaling never divides by zero. -/
theorem claim_C9_domain_never_degenerate (v : ℚ) (vs : List ℚ) :
    ∃ mn mx, minList? (v :: vs) = some mn ∧ maxList? (v :: vs) = some mx ∧
      adjusted_domain mn mx = (if mn = mx then (mn - 1, mx + 1) else (mn, mx)) ∧
      (adjusted_domain mn mx).1 < (adjusted_domain mn mx).2 ∧
      (adjusted_domain mn mx).2 - (adjusted_domain mn mx).1 ≠ 0 := by
  refine ⟨vs.foldl min v, vs.foldl max v, rfl, rfl, rfl, ?_, ?_⟩
  · have hle : vs.foldl min v ≤ vs.foldl max v :=
      le_trans (foldl_min_le vs v) (le_foldl_max vs v)
    rw [adjusted_domain]
    split
    · rename_i he
      dsimp only
      linarith
    · rename_i he
      dsimp only
      exact lt_of_le_of_ne hle he
  · have hle : vs.foldl min v ≤ vs.foldl max v :=
      le_trans (foldl_min_le vs v) (le_foldl_max vs v)
    rw [adjusted_domain]
    split
    · rename_i he
      dsimp only
      intro hc
      linarith [hc]
    · rename_i he
      dsimp only
      intro hc
      exact he (by linarith [hc])

/-- C10: the renderer is defined only for a non-empty value sequence: with
an empty `values` list it produces no output (Python raises at
`min(values)`, before emitting anything, even though the label-width and
canvas-height computations tolerate zero entries), while every non-empty
value list yields a document — a non-empty `values` argument is the
unstated precondition of the interface. -/
theorem claim_C10_empty_values_fails :
    (∀ (title : String) (labels : List String) (xlabel unit : String)
      (p : ChartParams),
      render_bar_chart_svg title labels [] xlabel unit p = none ∧
      minList? [] = none ∧
      chart_height p labels = p.margin * 2 + (labels.length : ℚ) *
        (p.bar_height + 6) + 40) ∧
    (∀ (title : String) (labels : List String) (v : ℚ) (vs : List ℚ)
      (xlabel unit : String) (p : ChartParams),
      (render_bar_chart_svg title labels (v :: vs) xlabel unit p).isSome =
        true) := by
  exact ⟨fun _ _ _ _ _ => ⟨rfl, rfl, rfl⟩, fun _ _ _ _ _ _ _ => rfl⟩

/-- C1 falsified at a concrete input: with identical values `[1, -1]` and
identical (default) layout parameters, labels `["X", "YY"]` put the zero
line at `x = 670`, while labels `["ABCDEFGHIJKLM", "YY"]` — a 13-character
label, which auto-expands the label column from 140 to 156 — put it at
`x = 678`: the zero-reference line position is not independent of label
content. -/
theorem claim_C1_counterexample :
    zero_x defaultParams ["X", "YY"] [1, -1] ≠
      zero_x defaultParams ["ABCDEFGHIJKLM", "YY"] [1, -1] := by
  have hX : ("X" : String).length = 1 := rfl
  have hY : ("YY" : String).length = 2 := rfl
  have hA : ("ABCDEFGHIJKLM" : String).length = 13 := rfl
  norm_num [zero_x, defaultParams, eff_label_width, max_label_len, chart_width,
    adjusted_domain, scaleVal, minList?, maxList?, hX, hY, hA, max_def, min_def]

/-- C1 (amended): the x-position of the zero-reference line depends on the
label sequence only through the effective label-column width
`max(label_width, min(240, 12 · longest-label-length))`: two calls with the
same values and layout parameters whose label sequences have the same
effective width draw the zero line at the same x.  For labels
`["X", "YY"]` and values `[1, -1]` the produced image contains exactly 2
bar elements: one starting at the zero line `x = 670` and extending right
(width 500), and one ending at the zero line (`170 + 500 = 670`) extending
left. -/
theorem claim_C1_amended_zero_line (p : ChartParams) (l1 l2 : List String)
    (values : List ℚ)
    (h : eff_label_width p l1 = eff_label_width p l2) :
    zero_x p l1 values = zero_x p l2 values ∧
    (render_bar_chart_svg "t" ["X", "YY"] [1, -1] "x" "u" defaultParams).map
        (fun es => es.filter (fun e => isRect e)) =
      some [SvgElem.rectEl 670 60 500 18 "#4C78A8",
            SvgElem.rectEl 170 84 500 18 "#4C78A8"] ∧
    zero_x defaultParams ["X", "YY"] [1, -1] = some 670 ∧
    (670 : ℚ) < 670 + 500 ∧ (170 : ℚ) + 500 = 670 := by
  have hX : ("X" : String).length = 1 := rfl
  have hY : ("YY" : String).length = 2 := rfl
  refine ⟨?_, ?_, ?_, by norm_num, by norm_num⟩
  · simp only [zero_x, chart_width, h]
  · norm_num [render_bar_chart_svg, defaultParams, eff_label_width,
      max_label_len, adjusted_domain, minList?, maxList?, isRect, List.filter,
      hX, hY, max_def, min_def, abs]
  · norm_num [zero_x, defaultParams, eff_label_width, max_label_len,
      chart_width, adjusted_domain, scaleVal, minList?, maxList?, hX, hY,
      max_def, min_def]

/-- Witness for `claim_C1_amended_zero_line`: the label sequences
`["X", "YY"]` and `["YY", "X"]` differ but have the same effective label
width, so the zero line lands at the same x. -/
theorem claim_C1_amended_zero_line_witness :
    eff_label_width defaultParams ["X", "YY"] =
      eff_label_width defaultParams ["YY", "X"] ∧
    (zero_x defaultParams ["X", "YY"] [1, -1] =
        zero_x defaultParams ["YY", "X"] [1, -1] ∧
      (render_bar_chart_svg "t" ["X", "YY"] [1, -1] "x" "u"
          defaultParams).map (fun es => es.filter (fun e => isRect e)) =
        some [SvgElem.rectEl 670 60 500 18 "#4C78A8",
              SvgElem.rectEl 170 84 500 18 "#4C78A8"] ∧
      zero_x defaultParams ["X", "YY"] [1, -1] = some 670 ∧
      (670 : ℚ) < 670 + 500 ∧ (170 : ℚ) + 500 = 670) :=
  ⟨rfl, claim_C1_amended_zero_line defaultParams ["X", "YY"] ["YY", "X"]
    [1, -1] rfl⟩

/-! ### Orchestrator (`main`) from the built table onward -/

/-- `sorted(items, key=lambda x: x[1], reverse=True)`: compare by the value
component only (stable). -/
def valLt (a b : String × ℚ) : Bool := decide (a.2 < b.2)

/-- The pipeline of `main` from the built province table onward: compute
annual means, top provinces, and monthly dispersion; if the monthly
dispersion list is empty, terminate fatally with
`SystemExit("No monthly dispersion data found.")` (embedded as
`Except.error` — `SystemExit` with a string message exits with a non-zero
status and the message on stderr) before rendering anything; otherwise
produce the list of output files (name, rendered document) exactly as the
two rendering loops do: one annual chart per top province (cities sorted by
descending mean), then one monthly chart per chosen month for the selected
province (cities with a value for that month, sorted descending). -/
def mainCharts (t : PCM) : Except String (List (String × Option (List SvgElem))) :=
  let annual := compute_annual_means t
  let tops := compute_top_provinces annual 2
  let md := compute_monthly_dispersion t
  match md with
  | [] => Except.error "No monthly dispersion data found."
  | e :: _ =>
    let sel := e.2.1
    let months := months_for_selected md sel
    let annualCharts := tops.map (fun province =>
      let sortedItems := sortDescBy valLt ((alGet annual province).getD [])
      ("annual_mean_" ++ province ++ ".svg",
        render_bar_chart_svg (province ++ " 各市全年均温")
          (sortedItems.map Prod.fst) (sortedItems.map Prod.snd)
          "全年均温" "原始单位" defaultParams))
    let monthlyCharts := months.map (fun month =>
      let cityTemps := ((alGet t sel).getD []).filterMap (fun cm =>
        (alGet cm.2 month).map (fun v => (cm.1, v)))
      let sortedItems := sortDescBy valLt cityTemps
      ("monthly_mean_" ++ sel ++ "_" ++ toString month ++ ".svg",
        render_bar_chart_svg (sel ++ " " ++ toString month ++ "月各市月均温")
          (sortedItems.map Prod.fst) (sortedItems.map Prod.snd)
          (toString month ++ "月均温") "原始单位" defaultParams))
    Except.ok (annualCharts ++ monthlyCharts)

/-- C5: when the monthly-dispersion result is empty (no (province, month)
pair ever had at least 2 contributing cities), the pipeline terminates
fatally with the descriptive message `"No monthly dispersion data found."`
(a `SystemExit` carrying a message — a non-zero exit status) and renders no
charts: it never reaches the `ok` branch carrying the chart list. -/
theorem claim_C5_empty_dispersion_fatal (t : PCM)
    (h : compute_monthly_dispersion t = []) :
    mainCharts t = Except.error "No monthly dispersion data found." ∧
    ∀ r, mainCharts t ≠ Except.ok r := by
  have hmain : mainCharts t = Except.error "No monthly dispersion data found." := by
    rw [mainCharts]
    rw [h]
  exact ⟨hmain, fun r hr => by rw [hmain] at hr; exact Except.noConfusion hr⟩

/-- Witness for `claim_C5_empty_dispersion_fatal` at the empty table. -/
theorem claim_C5_empty_dispersion_fatal_witness :
    compute_monthly_dispersion [] = [] ∧
    (mainCharts [] = Except.error "No monthly dispersion data found." ∧
      ∀ r, mainCharts [] ≠ Except.ok r) :=
  ⟨rfl, claim_C5_empty_dispersion_fatal [] rfl⟩

end TempDispersion
